import Mathlib

/-!
Shallow embedding of the chain-desktop-wallet market-price resolution engine
(`CroMarketApi` in the market service file) and of the Ledger multi-chain
address derivation sequence (`onWalletCreateFinishCore` in
`src/pages/create/create.tsx`).

Network and device I/O are modelled by environments: an environment maps each
request to the response the external service would give, and every function
additionally returns the list of network calls it issued (its trace) and the
updated mutable state (the module-level `TokenSlugMap` cache and the
`tokenSlugMap` directory memo).
-/

set_option linter.dupNamespace false

namespace Wallet

/-- Enum `UserAssetType` from `models/UserAsset`. -/
inductive UserAssetType where
  | TENDERMINT
  | IBC
  | EVM
  | CRC_20_TOKEN
  | ERC_20_TOKEN
  deriving DecidableEq, Repr

/-- Enum values of `SupportedChainName` from `config/StaticConfig` used by the
creation flow. -/
inductive SupportedChainName where
  | CRYPTO_ORG
  | COSMOS_HUB
  deriving DecidableEq, Repr

/-- The fields of `UserAsset` the market API and the creation flow read or
write. `tendermintChainName` models `config?.tendermintNetwork?.chainName`
(optional chaining, hence `Option`). -/
structure UserAsset where
  identifier : String
  assetType : UserAssetType
  mainnetSymbol : String
  symbol : String
  address : String
  tendermintChainName : Option SupportedChainName
  deriving DecidableEq, Repr

/-- Result record `AssetMarketPrice` from `models/UserAsset`. -/
structure AssetMarketPrice where
  assetSymbol : String
  currency : String
  price : String
  dailyChange : String
  assetType : UserAssetType
  deriving DecidableEq, Repr

/-- One entry of the `/all-tokens` slug directory (`CryptoComSlugResponse`). -/
structure CryptoComSlugResponse where
  slug : String
  symbol : String
  deriving DecidableEq, Repr

/-- Per-token price record (`CryptoTokenPriceAPIResponse`). `tags` may be
absent on the wire (`token.tags ?? []` in the source), hence `Option`.
Numeric JSON fields are modelled as rationals. -/
structure CryptoTokenPriceAPIResponse where
  slug : String
  symbol : String
  usd_price : Rat
  usd_price_change_24h : Rat
  tags : Option (List String)
  deriving DecidableEq, Repr

/-- An axios response: an HTTP status plus a parsed body. -/
structure AxiosResp (α : Type) where
  status : Nat
  data : α
  deriving DecidableEq, Repr

/-- Body of the Coinbase `/exchange-rates` response; `data` may be null on the
wire (`fiatRateResp.data && ...` in the source), hence the `Option` at the
use site. Rates are keyed by currency code. -/
structure CoinbaseData where
  currency : String
  rates : List (String × Rat)
  deriving DecidableEq, Repr

/-- A network request the market API can issue, for trace recording. -/
inductive NetCall where
  | allTokens
  | tokenPrice (slug : String)
  | exchangeRates (currency : String)
  deriving DecidableEq, Repr

/-- The external world of the market API: what each endpoint would answer,
plus the whitelist config maps (`CRC20MainnetTokenInfos` /
`ERC20MainnetTokenInfos` key sets, which live in config files outside the
reviewed sources and are therefore kept abstract as lists of symbols). -/
structure MarketEnv where
  allTokensResp : AxiosResp (List CryptoComSlugResponse)
  tokenPriceResp : String → AxiosResp CryptoTokenPriceAPIResponse
  coinbaseResp : String → AxiosResp (Option CoinbaseData)
  whitelistedCRC20Tokens : List String
  whitelistedERC20Tokens : List String

/-- Mutable module/instance state of `CroMarketApi`: the instance field
`tokenSlugMap` (directory memo, `undefined | null | list`) and the
module-level `TokenSlugMap` cache from asset identifier to slug. -/
structure MarketState where
  tokenSlugMap : Option (List CryptoComSlugResponse)
  slugCache : List (String × String)
  deriving DecidableEq, Repr

/-- Lookup (`Map.get`) on the `TokenSlugMap` association list. -/
def cacheGet (cache : List (String × String)) (key : String) : Option String :=
  (cache.find? (fun kv => kv.1 == key)).map (·.2)

/-- Update (`Map.set`) on the `TokenSlugMap` association list (overwrite or insert). -/
def cacheSet (cache : List (String × String)) (key value : String) :
    List (String × String) :=
  if (cache.find? (fun kv => kv.1 == key)).isSome then
    cache.map (fun kv => if kv.1 == key then (kv.1, value) else kv)
  else
    cache ++ [(key, value)]

/-- Result triple of an effectful market-API method: the value or thrown
error, the state after the call, and the network calls issued. -/
structure MRes (α : Type) where
  result : Except String α
  state : MarketState
  trace : List NetCall

/-- Conversion `String(x)` applied to a JS number, as used for `fiatPrice` and
`dailyChange`. -/
def numToStr (q : Rat) : String := toString q

/-- The three native slugs accepted unconditionally. -/
def nativeTokenSlug : List String := ["crypto-com-coin", "ethereum", "cosmos"]

/-- The candidate-selection predicate shared by `getTokenSlug` and
`getTokenPriceFromCryptoCom` (the body of the `find` callback), applied to a
fetched per-token price record. `token.tags ?? []` becomes `getD []`. -/
def slugCandidateMatches (env : MarketEnv) (assetType : UserAssetType)
    (token : CryptoTokenPriceAPIResponse) : Bool :=
  let tags := token.tags.getD []
  nativeTokenSlug.contains token.slug ||
  (assetType == UserAssetType.CRC_20_TOKEN &&
    env.whitelistedCRC20Tokens.contains token.symbol) ||
  (assetType == UserAssetType.CRC_20_TOKEN &&
    tags.contains "cronos-ecosystem") ||
  (assetType == UserAssetType.ERC_20_TOKEN &&
    env.whitelistedERC20Tokens.contains token.symbol.toUpper)

/-- Embedding of `CroMarketApi.loadTokenSlugMap`: return the memoized directory when it is
a non-empty list; otherwise fetch `/all-tokens`, throwing on a non-200 status
or an empty body, and memoize the body. -/
def loadTokenSlugMap (env : MarketEnv) (st : MarketState) :
    MRes (List CryptoComSlugResponse) :=
  match st.tokenSlugMap with
  | some l =>
    if l.length == 0 then
      let resp := env.allTokensResp
      if resp.status != 200 || resp.data.length < 1 then
        ⟨.error "Could not fetch Token Slug list.", st, [.allTokens]⟩
      else
        ⟨.ok resp.data, { st with tokenSlugMap := some resp.data }, [.allTokens]⟩
    else
      ⟨.ok l, st, []⟩
  | none =>
    let resp := env.allTokensResp
    if resp.status != 200 || resp.data.length < 1 then
      ⟨.error "Could not fetch Token Slug list.", st, [.allTokens]⟩
    else
      ⟨.ok resp.data, { st with tokenSlugMap := some resp.data }, [.allTokens]⟩

/-- Embedding of `CroMarketApi.getTokenSlug`: consult the `TokenSlugMap` cache first; on a
miss, load the directory, filter entries by `symbol === mainnetSymbol`, fetch
each candidate's price record, pick the first record satisfying the selection
predicate, cache and return its slug, or return `null` (here `none`) without
caching when nothing matches or the winning slug is falsy. -/
def getTokenSlug (env : MarketEnv) (st : MarketState) (asset : UserAsset) :
    MRes (Option String) :=
  match cacheGet st.slugCache asset.identifier with
  | some cachedSlug =>
    if cachedSlug.length > 0 then
      ⟨.ok (some cachedSlug), st, []⟩
    else
      getTokenSlugMiss env st asset
  | none => getTokenSlugMiss env st asset
where
  /-- The body of `getTokenSlug` past the cache check. -/
  getTokenSlugMiss (env : MarketEnv) (st : MarketState) (asset : UserAsset) :
      MRes (Option String) :=
    match loadTokenSlugMap env st with
    | ⟨.error e, st1, tr1⟩ => ⟨.error e, st1, tr1⟩
    | ⟨.ok allTokensSlugMap, st1, tr1⟩ =>
      let tokenSlugInfo :=
        allTokensSlugMap.filter (fun t => t.symbol == asset.mainnetSymbol)
      let tokenPriceResponses :=
        tokenSlugInfo.map (fun slugInfo => (env.tokenPriceResp slugInfo.slug).data)
      let tr2 := tokenSlugInfo.map (fun slugInfo => NetCall.tokenPrice slugInfo.slug)
      match tokenPriceResponses.find? (slugCandidateMatches env asset.assetType) with
      | none => ⟨.ok none, st1, tr1 ++ tr2⟩
      | some tokenPriceInUSD =>
        if tokenPriceInUSD.slug == "" then
          ⟨.ok none, st1, tr1 ++ tr2⟩
        else
          ⟨.ok (some tokenPriceInUSD.slug),
            { st1 with
              slugCache := cacheSet st1.slugCache asset.identifier tokenPriceInUSD.slug },
            tr1 ++ tr2⟩

/-- Embedding of `CroMarketApi.getCryptoToFiatRateFromCoinbase`: fetch `/exchange-rates`,
throw on non-200; return `data.rates[fiatCurrency]` when the body is present,
its `currency` echoes the request and the rate is defined; throw otherwise. -/
def getCryptoToFiatRateFromCoinbase (env : MarketEnv)
    (cryptoSymbol fiatCurrency : String) : Except String Rat :=
  let fiatRateResp := env.coinbaseResp cryptoSymbol
  if fiatRateResp.status != 200 then
    .error "Could not find requested market price info from Coinbase"
  else
    match fiatRateResp.data with
    | some d =>
      if d.currency == cryptoSymbol then
        match cacheRateLookup d.rates fiatCurrency with
        | some rate => .ok rate
        | none => .error "Could not find requested market price info from Coinbase"
      else
        .error "Could not find requested market price info from Coinbase"
    | none => .error "Could not find requested market price info from Coinbase"
where
  /-- `data.rates[fiatCurrency]` lookup. -/
  cacheRateLookup (rates : List (String × Rat)) (ccy : String) : Option Rat :=
    (rates.find? (fun kv => kv.1 == ccy)).map (·.2)

/-- The trace of a `getCryptoToFiatRateFromCoinbase` call: the single
`/exchange-rates` request it always issues. -/
def coinbaseTrace (cryptoSymbol : String) : List NetCall :=
  [.exchangeRates cryptoSymbol]

/-- Embedding of `CroMarketApi.getTokenPriceFromCryptoCom`: load the directory, filter by
`mainnetSymbol`, fetch every candidate's full axios response, pick the first
whose body satisfies the selection predicate, throw when none matches or the
winner's status is not 200; fetch the USD-to-fiat rate from Coinbase only
when `fiatCurrency` differs from `"USD"` (else the rate is 1); return the
fiat price and daily change as strings. Note: this method never consults the
`TokenSlugMap` cache. -/
def getTokenPriceFromCryptoCom (env : MarketEnv) (st : MarketState)
    (asset : UserAsset) (fiatCurrency : String) : MRes (String × String) :=
  match loadTokenSlugMap env st with
  | ⟨.error e, st1, tr1⟩ => ⟨.error e, st1, tr1⟩
  | ⟨.ok allTokensSlugMap, st1, tr1⟩ =>
    let tokenSlugInfo :=
      allTokensSlugMap.filter (fun t => t.symbol == asset.mainnetSymbol)
    let tokenPriceResponses :=
      tokenSlugInfo.map (fun slugInfo => env.tokenPriceResp slugInfo.slug)
    let tr2 := tokenSlugInfo.map (fun slugInfo => NetCall.tokenPrice slugInfo.slug)
    match tokenPriceResponses.find?
        (fun resp => slugCandidateMatches env asset.assetType resp.data) with
    | none => ⟨.error "Could not find a valid slug name", st1, tr1 ++ tr2⟩
    | some tokenPriceInUSD =>
      if tokenPriceInUSD.status != 200 then
        ⟨.error "Could not fetch token price.", st1, tr1 ++ tr2⟩
      else if fiatCurrency != "USD" then
        match getCryptoToFiatRateFromCoinbase env "USD" fiatCurrency with
        | .error e => ⟨.error e, st1, tr1 ++ tr2 ++ coinbaseTrace "USD"⟩
        | .ok usdToFiatRate =>
          ⟨.ok (numToStr (tokenPriceInUSD.data.usd_price * usdToFiatRate),
              numToStr tokenPriceInUSD.data.usd_price_change_24h),
            st1, tr1 ++ tr2 ++ coinbaseTrace "USD"⟩
      else
        ⟨.ok (numToStr (tokenPriceInUSD.data.usd_price * 1),
            numToStr tokenPriceInUSD.data.usd_price_change_24h),
          st1, tr1 ++ tr2⟩

/-- Embedding of `CroMarketApi.getAssetPrice`: delegate to `getTokenPriceFromCryptoCom`;
on any thrown error return the record with empty `price` and `dailyChange`;
on success return the same record shape with the computed values. Total: it
never propagates an error. -/
def getAssetPrice (env : MarketEnv) (st : MarketState) (asset : UserAsset)
    (currency : String) : AssetMarketPrice × MarketState × List NetCall :=
  match getTokenPriceFromCryptoCom env st asset currency with
  | ⟨.error _, st1, tr1⟩ =>
    (⟨asset.mainnetSymbol, currency, "", "", asset.assetType⟩, st1, tr1)
  | ⟨.ok (fiatPrice, dailyChange), st1, tr1⟩ =>
    (⟨asset.mainnetSymbol, currency, fiatPrice, dailyChange, asset.assetType⟩,
      st1, tr1)

/-! ## Ledger multi-chain address derivation flow

Embedding of the `walletType === LEDGER_WALLET_TYPE` branch of
`onWalletCreateFinishCore` in `src/pages/create/create.tsx`, followed by the
`walletService.saveAssets` call. The physical device is an environment
mapping each derivation request to the address it returns or the error it
throws; the two `waitFlag` polling loops observe external flag streams. -/

/-- Enum `DerivationPathStandard` from `service/signers/LedgerSigner`. -/
inductive DerivationPathStandard where
  | BIP44
  | LEDGER_LIVE
  deriving DecidableEq, Repr

/-- A request issued to the Ledger device (`ISignerProvider`). -/
inductive DeviceCall where
  | getAddress (index : Nat) (addressPfx : String) (chainName : SupportedChainName)
      (std : DerivationPathStandard) (confirm : Bool)
  | getEthAddress (index : Nat) (std : DerivationPathStandard) (confirm : Bool)
  deriving DecidableEq, Repr

/-- Observable events of one run of the creation flow: a `delay(ms)` tick of
a wait loop, a device call, and the `walletService.saveAssets` persistence
call. -/
inductive LedgerEvent where
  | poll (ms : Nat)
  | device (c : DeviceCall)
  | saveAssets
  deriving DecidableEq, Repr

/-- The wallet fields the flow reads and writes: `addrPfx` models
`config.network.addressPrefix`. -/
structure Wallet where
  addressIndex : Nat
  addrPfx : String
  derivationPathStandard : DerivationPathStandard
  address : String
  deriving DecidableEq, Repr

/-- The `createdWallet` pair produced by `WalletCreator.create()`. -/
structure CreatedWallet where
  wallet : Wallet
  assets : List UserAsset
  deriving DecidableEq, Repr

/-- Outcome of one run: the thrown error (caught by the surrounding `catch`)
or success, the in-memory draft after all mutations that happened, and the
event trace. -/
structure FlowRes where
  result : Except String Unit
  draft : CreatedWallet
  trace : List LedgerEvent
  deriving Repr

/-- The wait loop `for (let i = 0; i < 600; i++) { await delay(100);
if (!waitFlag) break; }`: number of delay ticks performed when `flag j` is
the value of `waitFlag` observed after the `j`-th tick's delay, with `n`
iterations remaining and `i` the current index. -/
def pollCountAux (flag : Nat → Bool) : Nat → Nat → Nat
  | 0, _ => 0
  | n + 1, i => 1 + (if flag i then pollCountAux flag n (i + 1) else 0)

/-- Number of 100ms delay ticks one wait loop performs. -/
def pollCount (flag : Nat → Bool) : Nat := pollCountAux flag 600 0

/-- Event trace of one wait loop: one `poll 100` event per delay tick. -/
def pollTrace (flag : Nat → Bool) : List LedgerEvent :=
  List.replicate (pollCount flag) (.poll 100)

/-- Embedding of `assets.filter(p)[0].address = addr`: assign `addr` to the first asset
satisfying `p`, or `none` when no asset matches (in which case the source
dereferences `undefined` and throws a `TypeError`). -/
def setFirstAddr (p : UserAsset → Bool) (addr : String) :
    List UserAsset → Option (List UserAsset)
  | [] => none
  | a :: rest =>
    if p a then some ({ a with address := addr } :: rest)
    else (setFirstAddr p addr rest).map (a :: ·)

/-- Filter for the CRO Tendermint asset (`assetType === TENDERMINT &&
mainnetSymbol === 'CRO'`). -/
def isCroTendermint (a : UserAsset) : Bool :=
  a.assetType == .TENDERMINT && a.mainnetSymbol == "CRO"

/-- Filter for EVM assets (`assetType === EVM`). -/
def isEvm (a : UserAsset) : Bool := a.assetType == .EVM

/-- Filter for the Cosmos Hub Tendermint asset (`assetType === TENDERMINT &&
config?.tendermintNetwork?.chainName === COSMOS_HUB`). -/
def isCosmosHubTendermint (a : UserAsset) : Bool :=
  a.assetType == .TENDERMINT && a.tendermintChainName == some .COSMOS_HUB

/-- The first device call: `device.getAddress(addressIndex,
config.network.addressPrefix, CRYPTO_ORG, derivationPathStandard, false)`. -/
def croDeviceCall (w : Wallet) : DeviceCall :=
  .getAddress w.addressIndex w.addrPfx .CRYPTO_ORG w.derivationPathStandard false

/-- The second device call: `device.getEthAddress(addressIndex,
derivationPathStandard, false)` (the form's standard equals the wallet's). -/
def ethDeviceCall (w : Wallet) : DeviceCall :=
  .getEthAddress w.addressIndex w.derivationPathStandard false

/-- The third device call: `device.getAddress(addressIndex, 'cosmos',
COSMOS_HUB, derivationPathStandard, false)`. -/
def cosmosDeviceCall (w : Wallet) : DeviceCall :=
  .getAddress w.addressIndex "cosmos" .COSMOS_HUB w.derivationPathStandard false

/-- Embedding of `createdWallet.assets.filter(isEvm).forEach(a => a.address = ethAddress)`:
assign the derived Ethereum address to every EVM asset. -/
def evmUpdate (ethAddress : String) (l : List UserAsset) : List UserAsset :=
  l.map (fun a => if isEvm a then { a with address := ethAddress } else a)

/-- The LEDGER branch of `onWalletCreateFinishCore` followed by
`saveAssets`: derive the Crypto.org address and write it onto the CRO asset
and the wallet, wait for the Ethereum app, derive the ETH address and write
it onto every EVM asset, wait for the Cosmos app, derive the Cosmos Hub
address and write it onto the Cosmos Hub asset, then persist. A thrown
device error (or `TypeError` from an absent asset) aborts the rest; the
mutations already performed are retained in the returned draft. -/
def ledgerCreateFlow (device : DeviceCall → Except String String)
    (flag1 flag2 : Nat → Bool) (created : CreatedWallet) : FlowRes :=
  let w := created.wallet
  match device (croDeviceCall w) with
  | .error e => ⟨.error e, created, [.device (croDeviceCall w)]⟩
  | .ok croAddress =>
    match setFirstAddr isCroTendermint croAddress created.assets with
    | none => ⟨.error "TypeError", created, [.device (croDeviceCall w)]⟩
    | some assets1 =>
      let w1 := { w with address := croAddress }
      let tr1 := LedgerEvent.device (croDeviceCall w) :: pollTrace flag1
      match device (ethDeviceCall w) with
      | .error e => ⟨.error e, ⟨w1, assets1⟩, tr1 ++ [.device (ethDeviceCall w)]⟩
      | .ok ethAddress =>
        let assets2 := evmUpdate ethAddress assets1
        let tr2 := tr1 ++ LedgerEvent.device (ethDeviceCall w) :: pollTrace flag2
        match device (cosmosDeviceCall w) with
        | .error e => ⟨.error e, ⟨w1, assets2⟩, tr2 ++ [.device (cosmosDeviceCall w)]⟩
        | .ok cosmosHubAddress =>
          match setFirstAddr isCosmosHubTendermint cosmosHubAddress assets2 with
          | none =>
            ⟨.error "TypeError", ⟨w1, assets2⟩, tr2 ++ [.device (cosmosDeviceCall w)]⟩
          | some assets3 =>
            ⟨.ok (), ⟨w1, assets3⟩,
              tr2 ++ [.device (cosmosDeviceCall w), .saveAssets]⟩

/-- The subsequence of device calls in an event trace. -/
def deviceCalls (tr : List LedgerEvent) : List DeviceCall :=
  tr.filterMap (fun e => match e with | .device c => some c | _ => none)

/-! ### Test fixtures (concrete inputs used by witnesses) -/

/-- A device that answers every derivation request with a fixed address. -/
def okDevice : DeviceCall → Except String String := fun _ => .ok "addr1"

/-- A device that derives the Crypto.org address but fails on the Ethereum
app. -/
def ethFailDevice : DeviceCall → Except String String := fun c =>
  match c with
  | .getEthAddress _ _ _ => .error "Ledger device: UNKNOWN_ERROR"
  | _ => .ok "addr1"

/-- A `waitFlag` stream that is already cleared at the first poll. -/
def clearedFlag : Nat → Bool := fun _ => false

/-- A concrete wallet draft under creation. -/
def wallet0 : Wallet := ⟨0, "cro", .BIP44, ""⟩

/-- The CRO Tendermint asset of the concrete draft. -/
def croAsset0 : UserAsset := ⟨"cro-id", .TENDERMINT, "CRO", "CRO", "", some .CRYPTO_ORG⟩

/-- The Cronos EVM asset of the concrete draft. -/
def evmAsset0 : UserAsset := ⟨"cronos-id", .EVM, "CRO", "CRO", "", none⟩

/-- The Cosmos Hub Tendermint asset of the concrete draft. -/
def atomAsset0 : UserAsset := ⟨"atom-id", .TENDERMINT, "ATOM", "ATOM", "", some .COSMOS_HUB⟩

/-- The concrete created-wallet pair. -/
def created0 : CreatedWallet := ⟨wallet0, [croAsset0, evmAsset0, atomAsset0]⟩

/-- The candidate-selection predicate as the specification words it (claim
refinement side): slug is one of the three native slugs, or a CRC-20 asset
with whitelisted symbol, or a CRC-20 asset whose tag list (absent treated as
empty) contains "cronos-ecosystem", or an ERC-20 asset whose upper-cased
symbol is whitelisted. To be compared against `slugCandidateMatches`. -/
def claimCandidateMatches (env : MarketEnv) (assetType : UserAssetType)
    (t : CryptoTokenPriceAPIResponse) : Bool :=
  (t.slug == "crypto-com-coin" || t.slug == "ethereum" || t.slug == "cosmos") ||
  (assetType == UserAssetType.CRC_20_TOKEN &&
    env.whitelistedCRC20Tokens.contains t.symbol) ||
  (assetType == UserAssetType.CRC_20_TOKEN &&
    (t.tags.getD []).contains "cronos-ecosystem") ||
  (assetType == UserAssetType.ERC_20_TOKEN &&
    env.whitelistedERC20Tokens.contains t.symbol.toUpper)

/-! ### Market fixtures (concrete inputs used by witnesses) -/

/-- A concrete per-token price record for CRO. -/
def croTokenRecord : CryptoTokenPriceAPIResponse :=
  ⟨"crypto-com-coin", "CRO", 2 / 25, 1 / 2, none⟩

/-- A concrete market environment where every feed call succeeds. -/
def env0 : MarketEnv where
  allTokensResp := ⟨200, [⟨"crypto-com-coin", "CRO"⟩]⟩
  tokenPriceResp := fun _ => ⟨200, croTokenRecord⟩
  coinbaseResp := fun sym => ⟨200, some ⟨sym, [("EUR", 9 / 10)]⟩⟩
  whitelistedCRC20Tokens := []
  whitelistedERC20Tokens := []

/-- A concrete market environment whose feeds all answer with status 200 but
whose Coinbase rates map is empty, so the USD-to-fiat lookup is undefined. -/
def envNoRates : MarketEnv where
  allTokensResp := ⟨200, [⟨"crypto-com-coin", "CRO"⟩]⟩
  tokenPriceResp := fun _ => ⟨200, croTokenRecord⟩
  coinbaseResp := fun sym => ⟨200, some ⟨sym, []⟩⟩
  whitelistedCRC20Tokens := []
  whitelistedERC20Tokens := []

/-- The empty initial market state (fresh session, directory not loaded). -/
def st0 : MarketState := ⟨none, []⟩

/-- A market state holding a loaded directory and a cached slug for the
asset identifier "cro-id". -/
def stCached : MarketState :=
  ⟨some [⟨"crypto-com-coin", "CRO"⟩], [("cro-id", "crypto-com-coin")]⟩

/-! ### Helper lemmas about traces -/

theorem deviceCalls_nil : deviceCalls [] = [] := rfl

theorem deviceCalls_cons_poll (ms : Nat) (tr : List LedgerEvent) :
    deviceCalls (.poll ms :: tr) = deviceCalls tr := rfl

theorem deviceCalls_cons_device (c : DeviceCall) (tr : List LedgerEvent) :
    deviceCalls (.device c :: tr) = c :: deviceCalls tr := rfl

theorem deviceCalls_cons_save (tr : List LedgerEvent) :
    deviceCalls (.saveAssets :: tr) = deviceCalls tr := rfl

theorem deviceCalls_append (t1 t2 : List LedgerEvent) :
    deviceCalls (t1 ++ t2) = deviceCalls t1 ++ deviceCalls t2 := by
  simp [deviceCalls, List.filterMap_append]

theorem deviceCalls_replicate_poll (n ms : Nat) :
    deviceCalls (List.replicate n (.poll ms)) = [] := by
  induction n with
  | zero => rfl
  | succ n ih => rw [List.replicate_succ, deviceCalls_cons_poll, ih]

theorem deviceCalls_pollTrace (flag : Nat → Bool) :
    deviceCalls (pollTrace flag) = [] := by
  unfold pollTrace; exact deviceCalls_replicate_poll _ _

theorem saveAssets_not_mem_pollTrace (flag : Nat → Bool) :
    LedgerEvent.saveAssets ∉ pollTrace flag := by
  unfold pollTrace
  intro h
  have := List.eq_of_mem_replicate h
  exact LedgerEvent.noConfusion this

/-! ### Claim theorems -/

/-- C1: for every asset and currency, `getAssetPrice` never throws: it is a
total function whose result always carries the asset's `mainnetSymbol`, the
requested currency and the asset's type; whenever the inner
`getTokenPriceFromCryptoCom` call throws (for any reason), the result is the
record with empty `price` and `dailyChange`, and on success it is the same
record shape with the computed fiat price and daily change. -/
theorem getAssetPrice_never_throws (env : MarketEnv) (st : MarketState)
    (asset : UserAsset) (currency : String) :
    ((getAssetPrice env st asset currency).1.assetSymbol = asset.mainnetSymbol ∧
     (getAssetPrice env st asset currency).1.currency = currency ∧
     (getAssetPrice env st asset currency).1.assetType = asset.assetType) ∧
    (∀ e st1 tr1,
      getTokenPriceFromCryptoCom env st asset currency = ⟨.error e, st1, tr1⟩ →
      (getAssetPrice env st asset currency).1 =
        ⟨asset.mainnetSymbol, currency, "", "", asset.assetType⟩) ∧
    (∀ p d st1 tr1,
      getTokenPriceFromCryptoCom env st asset currency = ⟨.ok (p, d), st1, tr1⟩ →
      (getAssetPrice env st asset currency).1 =
        ⟨asset.mainnetSymbol, currency, p, d, asset.assetType⟩) := by
  refine ⟨?_, ?_, ?_⟩
  · unfold getAssetPrice
    rcases h : getTokenPriceFromCryptoCom env st asset currency with ⟨res, st1, tr1⟩
    rcases res with e | ⟨p, d⟩ <;> simp
  · intro e st1 tr1 h
    unfold getAssetPrice
    rw [h]
  · intro p d st1 tr1 h
    unfold getAssetPrice
    rw [h]

/-- C1 witness: at the concrete fixtures the record fields are as stated. -/
theorem getAssetPrice_never_throws_witness :
    (getAssetPrice env0 st0 croAsset0 "USD").1.assetSymbol = "CRO" :=
  (getAssetPrice_never_throws env0 st0 croAsset0 "USD").1.1

/-- C2: a run of the LEDGER derivation sequence issues device calls only
from the ordered list [getAddress CRYPTO_ORG, getEthAddress, getAddress
COSMOS_HUB] (the issued calls always form a prefix of it, so step N+1 is
never issued before step N's call has settled, and in particular only after
it settled successfully), and on a successful run exactly these three calls
are issued in exactly this order. -/
theorem ledger_device_call_order (device : DeviceCall → Except String String)
    (flag1 flag2 : Nat → Bool) (created : CreatedWallet) :
    (∃ rest, deviceCalls (ledgerCreateFlow device flag1 flag2 created).trace ++ rest =
      [croDeviceCall created.wallet, ethDeviceCall created.wallet,
        cosmosDeviceCall created.wallet]) ∧
    ((ledgerCreateFlow device flag1 flag2 created).result = .ok () →
      deviceCalls (ledgerCreateFlow device flag1 flag2 created).trace =
        [croDeviceCall created.wallet, ethDeviceCall created.wallet,
          cosmosDeviceCall created.wallet]) ∧
    (ethDeviceCall created.wallet ∈
        deviceCalls (ledgerCreateFlow device flag1 flag2 created).trace →
      ∃ a, device (croDeviceCall created.wallet) = .ok a) ∧
    (cosmosDeviceCall created.wallet ∈
        deviceCalls (ledgerCreateFlow device flag1 flag2 created).trace →
      ∃ a, device (ethDeviceCall created.wallet) = .ok a) := by
  rcases h1 : device (croDeviceCall created.wallet) with e1 | croA
  · simp only [ledgerCreateFlow, h1]
    refine ⟨⟨[ethDeviceCall created.wallet, cosmosDeviceCall created.wallet], ?_⟩, ?_, ?_, ?_⟩ <;>
      simp [deviceCalls_cons_device, deviceCalls_nil, croDeviceCall, ethDeviceCall,
        cosmosDeviceCall]
  · rcases h2 : setFirstAddr isCroTendermint croA created.assets with _ | assets1
    · simp only [ledgerCreateFlow, h1, h2]
      refine ⟨⟨[ethDeviceCall created.wallet, cosmosDeviceCall created.wallet], ?_⟩, ?_, ?_, ?_⟩ <;>
        simp [deviceCalls_cons_device, deviceCalls_nil, croDeviceCall, ethDeviceCall,
          cosmosDeviceCall]
    · rcases h3 : device (ethDeviceCall created.wallet) with e3 | ethA
      · simp only [ledgerCreateFlow, h1, h2, h3]
        refine ⟨⟨[cosmosDeviceCall created.wallet], ?_⟩, ?_, ?_, ?_⟩ <;>
          simp [deviceCalls_append, deviceCalls_cons_device, deviceCalls_pollTrace,
            deviceCalls_nil, croDeviceCall, ethDeviceCall, cosmosDeviceCall]
      · rcases h4 : device (cosmosDeviceCall created.wallet) with e4 | atomA
        · simp only [ledgerCreateFlow, h1, h2, h3, h4]
          refine ⟨⟨[], ?_⟩, ?_, ?_, ?_⟩ <;>
            simp [deviceCalls_append, deviceCalls_cons_device, deviceCalls_pollTrace,
              deviceCalls_nil, deviceCalls_cons_poll]
        · rcases h5 : setFirstAddr isCosmosHubTendermint atomA (evmUpdate ethA assets1) with _ | assets3
          · simp only [ledgerCreateFlow, h1, h2, h3, h4, h5]
            refine ⟨⟨[], ?_⟩, ?_, ?_, ?_⟩ <;>
              simp [deviceCalls_append, deviceCalls_cons_device, deviceCalls_pollTrace,
                deviceCalls_nil]
          · simp only [ledgerCreateFlow, h1, h2, h3, h4, h5]
            refine ⟨⟨[], ?_⟩, ?_, ?_, ?_⟩ <;>
              simp [deviceCalls_append, deviceCalls_cons_device, deviceCalls_cons_save,
                deviceCalls_pollTrace, deviceCalls_nil]

/-- C2 witness: with a device that answers every call, the three calls are
issued in order on the concrete draft. -/
theorem ledger_device_call_order_witness :
    deviceCalls (ledgerCreateFlow okDevice clearedFlag clearedFlag created0).trace =
      [croDeviceCall created0.wallet, ethDeviceCall created0.wallet,
        cosmosDeviceCall created0.wallet] :=
  (ledger_device_call_order okDevice clearedFlag clearedFlag created0).2.1 rfl

/-- C3: if any derivation step's device call throws, the rest of the run is
abandoned: the run result is an error and `saveAssets` is never reached; in
the particular case where the EVM step fails after a successful CRYPTO_ORG
step, exactly the two first device calls were issued (the COSMOS_HUB call is
never attempted) and the in-memory draft retains exactly the CRYPTO_ORG
address assignments (the CRO asset and the wallet's top-level address). -/
theorem ledger_step_failure_halts (device : DeviceCall → Except String String)
    (flag1 flag2 : Nat → Bool) (created : CreatedWallet) :
    (∀ e, (ledgerCreateFlow device flag1 flag2 created).result = .error e →
      LedgerEvent.saveAssets ∉ (ledgerCreateFlow device flag1 flag2 created).trace) ∧
    (∀ croA err assets1,
      device (croDeviceCall created.wallet) = .ok croA →
      device (ethDeviceCall created.wallet) = .error err →
      setFirstAddr isCroTendermint croA created.assets = some assets1 →
      (ledgerCreateFlow device flag1 flag2 created).result = .error err ∧
      deviceCalls (ledgerCreateFlow device flag1 flag2 created).trace =
        [croDeviceCall created.wallet, ethDeviceCall created.wallet] ∧
      cosmosDeviceCall created.wallet ∉
        deviceCalls (ledgerCreateFlow device flag1 flag2 created).trace ∧
      (ledgerCreateFlow device flag1 flag2 created).draft =
        ⟨{ created.wallet with address := croA }, assets1⟩) := by
  constructor
  · intro e hres
    rcases h1 : device (croDeviceCall created.wallet) with e1 | croA
    · simp only [ledgerCreateFlow, h1]
      simp
    · rcases h2 : setFirstAddr isCroTendermint croA created.assets with _ | assets1
      · simp only [ledgerCreateFlow, h1, h2]
        simp
      · rcases h3 : device (ethDeviceCall created.wallet) with e3 | ethA
        · simp only [ledgerCreateFlow, h1, h2, h3]
          simp [saveAssets_not_mem_pollTrace]
        · rcases h4 : device (cosmosDeviceCall created.wallet) with e4 | atomA
          · simp only [ledgerCreateFlow, h1, h2, h3, h4]
            simp [saveAssets_not_mem_pollTrace]
          · rcases h5 : setFirstAddr isCosmosHubTendermint atomA (evmUpdate ethA assets1)
              with _ | assets3
            · simp only [ledgerCreateFlow, h1, h2, h3, h4, h5]
              simp [saveAssets_not_mem_pollTrace]
            · simp only [ledgerCreateFlow, h1, h2, h3, h4, h5] at hres
              exact Except.noConfusion hres
  · intro croA err assets1 hcro heth hA1
    simp only [ledgerCreateFlow, hcro, hA1, heth]
    simp [deviceCalls_append, deviceCalls_cons_device, deviceCalls_pollTrace,
      deviceCalls_nil, croDeviceCall, ethDeviceCall, cosmosDeviceCall]

/-- C3 witness: with a device that fails on the Ethereum app, the run on the
concrete draft errors out, issues exactly the first two device calls, and
keeps the CRYPTO_ORG address on the draft. -/
theorem ledger_step_failure_halts_witness :
    (ledgerCreateFlow ethFailDevice clearedFlag clearedFlag created0).result =
        .error "Ledger device: UNKNOWN_ERROR" ∧
      deviceCalls (ledgerCreateFlow ethFailDevice clearedFlag clearedFlag created0).trace =
        [croDeviceCall created0.wallet, ethDeviceCall created0.wallet] :=
  have h := (ledger_step_failure_halts ethFailDevice clearedFlag clearedFlag created0).2
    "addr1" "Ledger device: UNKNOWN_ERROR"
    [{ croAsset0 with address := "addr1" }, evmAsset0, atomAsset0]
    rfl rfl (by decide)
  ⟨h.1, h.2.1⟩

theorem pollCountAux_le (flag : Nat → Bool) : ∀ n i, pollCountAux flag n i ≤ n := by
  intro n
  induction n with
  | zero => intro i; simp [pollCountAux]
  | succ n ih =>
    intro i
    unfold pollCountAux
    cases h : flag i
    · simp [h]
    · simp only [h, if_true]
      have := ih (i + 1)
      omega

theorem pollCountAux_early (flag : Nat → Bool) :
    ∀ n i k, k < n → flag (i + k) = false → (∀ j, j < k → flag (i + j) = true) →
      pollCountAux flag n i = k + 1 := by
  intro n
  induction n with
  | zero => intro i k hk; omega
  | succ n ih =>
    intro i k hk hfalse htrue
    unfold pollCountAux
    cases k with
    | zero =>
      have h0 : flag i = false := by simpa using hfalse
      simp [h0]
    | succ k =>
      have h0 : flag i = true := by simpa using htrue 0 (Nat.succ_pos k)
      have hrec := ih (i + 1) k (by omega)
        (by rw [show i + 1 + k = i + (k + 1) by omega]; exact hfalse)
        (fun j hj => by
          rw [show i + 1 + j = i + (j + 1) by omega]
          exact htrue (j + 1) (by omega))
      simp only [h0, if_true]
      omega

theorem setFirstAddr_isSome_of_mem (p : UserAsset → Bool) (addr : String) :
    ∀ {l : List UserAsset} {a : UserAsset}, a ∈ l → p a = true →
      ∃ l2, setFirstAddr p addr l = some l2 := by
  intro l
  induction l with
  | nil => intro a ha _; exact absurd ha (List.not_mem_nil a)
  | cons b rest ih =>
    intro a ha hp
    cases hb : p b
    · rcases List.mem_cons.mp ha with rfl | ha2
      · rw [hp] at hb; exact Bool.noConfusion hb
      · rcases ih ha2 hp with ⟨l2, h2⟩
        exact ⟨b :: l2, by simp [setFirstAddr, hb, h2]⟩
    · exact ⟨{ b with address := addr } :: rest, by simp [setFirstAddr, hb]⟩

theorem setFirstAddr_decomp (p : UserAsset → Bool) (addr : String) :
    ∀ {l l2 : List UserAsset}, setFirstAddr p addr l = some l2 →
      ∃ pre a post, l = pre ++ a :: post ∧
        l2 = pre ++ { a with address := addr } :: post ∧
        p a = true ∧ ∀ b ∈ pre, p b = false := by
  intro l
  induction l with
  | nil => intro l2 h; exact Option.noConfusion h
  | cons b rest ih =>
    intro l2 h
    cases hb : p b
    · simp only [setFirstAddr, hb, Bool.false_eq_true, if_false] at h
      rcases Option.map_eq_some'.mp h with ⟨l3, h3, rfl⟩
      rcases ih h3 with ⟨pre, a, post, h1, h2, hp, hpre⟩
      refine ⟨b :: pre, a, post, by simp [h1], by simp [h2], hp, ?_⟩
      intro x hx
      rcases List.mem_cons.mp hx with rfl | hx
      · exact hb
      · exact hpre x hx
    · simp only [setFirstAddr, hb, if_true, Option.some.injEq] at h
      exact ⟨[], b, rest, rfl, by simp [← h], hb, by simp⟩

theorem countP_setFirstAddr (p q : UserAsset → Bool) (addr : String)
    (hq : ∀ a s, q { a with address := s } = q a) {l l2 : List UserAsset}
    (h : setFirstAddr p addr l = some l2) : l2.countP q = l.countP q := by
  rcases setFirstAddr_decomp p addr h with ⟨pre, a, post, h1, h2, _, _⟩
  subst h1; subst h2
  simp [List.countP_append, List.countP_cons, hq]

theorem mem_setFirstAddr_shape (p : UserAsset → Bool) (addr : String)
    {l l2 : List UserAsset} (h : setFirstAddr p addr l = some l2) :
    ∀ x ∈ l2, ∃ b ∈ l, ∃ s, x = { b with address := s } := by
  rcases setFirstAddr_decomp p addr h with ⟨pre, a, post, h1, h2, _, _⟩
  subst h1; subst h2
  intro x hx
  rcases List.mem_append.mp hx with hx | hx
  · exact ⟨x, List.mem_append_left _ hx, x.address, rfl⟩
  · rcases List.mem_cons.mp hx with rfl | hx
    · exact ⟨a, by simp, addr, rfl⟩
    · exact ⟨x, by simp [hx], x.address, rfl⟩

theorem setFirstAddr_value_unique (p : UserAsset → Bool) (addr : String)
    {l l2 : List UserAsset} (h : setFirstAddr p addr l = some l2)
    (huniq : l.countP p ≤ 1) :
    ∀ x ∈ l2, p x = true → x.address = addr := by
  rcases setFirstAddr_decomp p addr h with ⟨pre, a, post, h1, h2, hpa, hpre⟩
  subst h1; subst h2
  intro x hx hpx
  rcases List.mem_append.mp hx with hx | hx
  · rw [hpre x hx] at hpx; exact Bool.noConfusion hpx
  · rcases List.mem_cons.mp hx with rfl | hx
    · rfl
    · exfalso
      have hpos : 0 < post.countP p := List.countP_pos_iff.mpr ⟨x, hx, hpx⟩
      simp [List.countP_append, List.countP_cons, hpa] at huniq
      omega

theorem setFirstAddr_preserve_value (p q : UserAsset → Bool) (addr v : String)
    (hq : ∀ a s, q { a with address := s } = q a)
    {l l2 : List UserAsset}
    (hdisj : ∀ b ∈ l, p b = true → q b = false)
    (hval : ∀ b ∈ l, q b = true → b.address = v)
    (h : setFirstAddr p addr l = some l2) :
    ∀ x ∈ l2, q x = true → x.address = v := by
  rcases setFirstAddr_decomp p addr h with ⟨pre, a, post, h1, h2, hpa, _⟩
  subst h1; subst h2
  intro x hx hqx
  rcases List.mem_append.mp hx with hx | hx
  · exact hval x (List.mem_append_left _ hx) hqx
  · rcases List.mem_cons.mp hx with rfl | hx
    · rw [hq] at hqx
      rw [hdisj a (by simp) hpa] at hqx
      exact Bool.noConfusion hqx
    · exact hval x (by simp [hx]) hqx

theorem mem_evmUpdate_shape (ethA : String) (l : List UserAsset) :
    ∀ x ∈ evmUpdate ethA l, ∃ b ∈ l, ∃ s, x = { b with address := s } := by
  intro x hx
  rcases List.mem_map.mp hx with ⟨b, hb, rfl⟩
  cases h : isEvm b
  · exact ⟨b, hb, b.address, by simp [h]⟩
  · exact ⟨b, hb, ethA, by simp [h]⟩

theorem countP_evmUpdate (q : UserAsset → Bool)
    (hq : ∀ a s, q { a with address := s } = q a) (ethA : String) :
    ∀ l : List UserAsset, (evmUpdate ethA l).countP q = l.countP q := by
  intro l
  induction l with
  | nil => rfl
  | cons b rest ih =>
    simp only [evmUpdate, List.map_cons, List.countP_cons] at *
    cases h : isEvm b
    · simp [h, ih]
    · simp [h, hq, ih]

theorem evmUpdate_addr (ethA : String) (l : List UserAsset) :
    ∀ x ∈ evmUpdate ethA l, isEvm x = true → x.address = ethA := by
  intro x hx hevm
  rcases List.mem_map.mp hx with ⟨b, hb, rfl⟩
  cases h : isEvm b
  · simp [h] at hevm
  · simp [h]

theorem evmUpdate_preserve_value (q : UserAsset → Bool)
    (hq : ∀ a s, q { a with address := s } = q a)
    (hne : ∀ a : UserAsset, q a = true → isEvm a = false)
    (v ethA : String) (l : List UserAsset)
    (hval : ∀ b ∈ l, q b = true → b.address = v) :
    ∀ x ∈ evmUpdate ethA l, q x = true → x.address = v := by
  intro x hx hqx
  rcases List.mem_map.mp hx with ⟨b, hb, rfl⟩
  cases h : isEvm b
  · simp only [h, Bool.false_eq_true, if_false] at hqx ⊢
    exact hval b hb hqx
  · simp only [h, if_true] at hqx ⊢
    rw [hq] at hqx
    rw [hne b hqx] at h
    exact Bool.noConfusion h

theorem isCroTendermint_addrBlind (a : UserAsset) (s : String) :
    isCroTendermint { a with address := s } = isCroTendermint a := rfl

theorem isEvm_addrBlind (a : UserAsset) (s : String) :
    isEvm { a with address := s } = isEvm a := rfl

theorem isCosmosHubTendermint_addrBlind (a : UserAsset) (s : String) :
    isCosmosHubTendermint { a with address := s } = isCosmosHubTendermint a := rfl

theorem isCroTendermint_not_evm (a : UserAsset) (h : isCroTendermint a = true) :
    isEvm a = false := by
  simp only [isCroTendermint, Bool.and_eq_true, beq_iff_eq] at h
  unfold isEvm
  rw [h.1]
  rfl

theorem isCosmosHubTendermint_not_evm (a : UserAsset)
    (h : isCosmosHubTendermint a = true) : isEvm a = false := by
  simp only [isCosmosHubTendermint, Bool.and_eq_true, beq_iff_eq] at h
  unfold isEvm
  rw [h.1]
  rfl

/-- C7: each "awaiting app switch" wait performs at most 600 polls, every
poll is a 100ms delay tick, the loop exits right after the poll at which the
external `waitFlag` is observed cleared, and whatever the flag stream does,
the following step's device call is issued after the wait (shown for both
the Ethereum and the Cosmos waits). -/
theorem ledger_wait_loop_bounded (flag : Nat → Bool) :
    (pollTrace flag).length ≤ 600 ∧
    (∀ e ∈ pollTrace flag, e = LedgerEvent.poll 100) ∧
    (∀ k, k < 600 → flag k = false → (∀ j, j < k → flag j = true) →
      (pollTrace flag).length = k + 1) ∧
    (∀ (device : DeviceCall → Except String String) (flag2 : Nat → Bool)
        (created : CreatedWallet) (croA : String) (assets1 : List UserAsset),
      device (croDeviceCall created.wallet) = .ok croA →
      setFirstAddr isCroTendermint croA created.assets = some assets1 →
      LedgerEvent.device (ethDeviceCall created.wallet) ∈
        (ledgerCreateFlow device flag flag2 created).trace) ∧
    (∀ (device : DeviceCall → Except String String) (flag1 : Nat → Bool)
        (created : CreatedWallet) (croA : String) (assets1 : List UserAsset)
        (ethA : String),
      device (croDeviceCall created.wallet) = .ok croA →
      setFirstAddr isCroTendermint croA created.assets = some assets1 →
      device (ethDeviceCall created.wallet) = .ok ethA →
      LedgerEvent.device (cosmosDeviceCall created.wallet) ∈
        (ledgerCreateFlow device flag1 flag created).trace) := by
  refine ⟨?_, ?_, ?_, ?_, ?_⟩
  · simp only [pollTrace, List.length_replicate]
    exact pollCountAux_le flag 600 0
  · intro e he
    exact List.eq_of_mem_replicate he
  · intro k hk hkf hkt
    simp only [pollTrace, List.length_replicate]
    exact pollCountAux_early flag 600 0 k hk (by simpa using hkf)
      (fun j hj => by simpa using hkt j hj)
  · intro device flag2 created croA assets1 hcro hA1
    rcases h3 : device (ethDeviceCall created.wallet) with e3 | ethA
    · simp only [ledgerCreateFlow, hcro, hA1, h3]
      simp
    · rcases h4 : device (cosmosDeviceCall created.wallet) with e4 | atomA
      · simp only [ledgerCreateFlow, hcro, hA1, h3, h4]
        simp
      · rcases h5 : setFirstAddr isCosmosHubTendermint atomA (evmUpdate ethA assets1)
          with _ | assets3
        · simp only [ledgerCreateFlow, hcro, hA1, h3, h4, h5]
          simp
        · simp only [ledgerCreateFlow, hcro, hA1, h3, h4, h5]
          simp
  · intro device flag1 created croA assets1 ethA hcro hA1 heth
    rcases h4 : device (cosmosDeviceCall created.wallet) with e4 | atomA
    · simp only [ledgerCreateFlow, hcro, hA1, heth, h4]
      simp
    · rcases h5 : setFirstAddr isCosmosHubTendermint atomA (evmUpdate ethA assets1)
        with _ | assets3
      · simp only [ledgerCreateFlow, hcro, hA1, heth, h4, h5]
        simp
      · simp only [ledgerCreateFlow, hcro, hA1, heth, h4, h5]
        simp

/-- C7 witness: a flag cleared at the first poll makes the wait loop perform
exactly one poll, and the bound holds. -/
theorem ledger_wait_loop_bounded_witness :
    (pollTrace clearedFlag).length = 0 + 1 :=
  (ledger_wait_loop_bounded clearedFlag).2.2.1 0 (by omega) rfl
    (fun j hj => absurd hj (by omega))

/-- C4: after a successful LEDGER run, the wallet's top-level address is the
derived CRYPTO_ORG address; assuming the draft contains a CRO Tendermint
asset and a Cosmos Hub Tendermint asset (each at most once, and no asset
being both), the CRO Tendermint asset carries the CRYPTO_ORG address, every
EVM asset carries the derived Ethereum address, the Cosmos Hub Tendermint
asset carries the derived Cosmos Hub address, and hence every asset matching
a completed step has a non-empty address whenever the device returned
non-empty addresses. -/
theorem ledger_success_addresses (device : DeviceCall → Except String String)
    (flag1 flag2 : Nat → Bool) (created : CreatedWallet)
    (croA ethA atomA : String)
    (hcro : device (croDeviceCall created.wallet) = .ok croA)
    (heth : device (ethDeviceCall created.wallet) = .ok ethA)
    (hcos : device (cosmosDeviceCall created.wallet) = .ok atomA)
    (hcroEx : ∃ a ∈ created.assets, isCroTendermint a = true)
    (hatomEx : ∃ a ∈ created.assets, isCosmosHubTendermint a = true)
    (hcroUniq : created.assets.countP isCroTendermint ≤ 1)
    (hatomUniq : created.assets.countP isCosmosHubTendermint ≤ 1)
    (hdisj : ∀ b ∈ created.assets,
      isCosmosHubTendermint b = true → isCroTendermint b = false) :
    (ledgerCreateFlow device flag1 flag2 created).result = .ok () ∧
    (ledgerCreateFlow device flag1 flag2 created).draft.wallet.address = croA ∧
    (∀ a ∈ (ledgerCreateFlow device flag1 flag2 created).draft.assets,
      isCroTendermint a = true → a.address = croA) ∧
    (∀ a ∈ (ledgerCreateFlow device flag1 flag2 created).draft.assets,
      isEvm a = true → a.address = ethA) ∧
    (∀ a ∈ (ledgerCreateFlow device flag1 flag2 created).draft.assets,
      isCosmosHubTendermint a = true → a.address = atomA) ∧
    (croA ≠ "" → ethA ≠ "" → atomA ≠ "" →
      ∀ a ∈ (ledgerCreateFlow device flag1 flag2 created).draft.assets,
        (isCroTendermint a = true ∨ isEvm a = true ∨
          isCosmosHubTendermint a = true) → a.address ≠ "") := by
  obtain ⟨c0, hc0, hc0p⟩ := hcroEx
  obtain ⟨assets1, hA1⟩ := setFirstAddr_isSome_of_mem isCroTendermint croA hc0 hc0p
  have hatomCount1 : assets1.countP isCosmosHubTendermint =
      created.assets.countP isCosmosHubTendermint :=
    countP_setFirstAddr _ _ _ isCosmosHubTendermint_addrBlind hA1
  have hatomCount2 : (evmUpdate ethA assets1).countP isCosmosHubTendermint =
      assets1.countP isCosmosHubTendermint :=
    countP_evmUpdate _ isCosmosHubTendermint_addrBlind ethA assets1
  have hatomEx2 : ∃ x ∈ evmUpdate ethA assets1, isCosmosHubTendermint x = true := by
    apply List.countP_pos_iff.mp
    rw [hatomCount2, hatomCount1]
    exact List.countP_pos_iff.mpr hatomEx
  obtain ⟨d0, hd0, hd0p⟩ := hatomEx2
  obtain ⟨assets3, hA3⟩ := setFirstAddr_isSome_of_mem isCosmosHubTendermint atomA hd0 hd0p
  have f1 : ∀ x ∈ assets1, isCroTendermint x = true → x.address = croA :=
    setFirstAddr_value_unique isCroTendermint croA hA1 hcroUniq
  have f2 : ∀ x ∈ evmUpdate ethA assets1, isCroTendermint x = true → x.address = croA :=
    evmUpdate_preserve_value isCroTendermint isCroTendermint_addrBlind
      isCroTendermint_not_evm croA ethA assets1 f1
  have hdisj2 : ∀ b ∈ evmUpdate ethA assets1,
      isCosmosHubTendermint b = true → isCroTendermint b = false := by
    intro b hb hatomb
    rcases mem_evmUpdate_shape ethA assets1 b hb with ⟨b1, hb1, s, rfl⟩
    rcases mem_setFirstAddr_shape isCroTendermint croA hA1 b1 hb1 with ⟨b0, hb0, s0, rfl⟩
    rw [isCosmosHubTendermint_addrBlind, isCosmosHubTendermint_addrBlind] at hatomb
    rw [isCroTendermint_addrBlind, isCroTendermint_addrBlind]
    exact hdisj b0 hb0 hatomb
  have f3 : ∀ x ∈ assets3, isCroTendermint x = true → x.address = croA :=
    setFirstAddr_preserve_value isCosmosHubTendermint isCroTendermint atomA croA
      isCroTendermint_addrBlind hdisj2 f2 hA3
  have g2 : ∀ x ∈ evmUpdate ethA assets1, isEvm x = true → x.address = ethA :=
    evmUpdate_addr ethA assets1
  have g3 : ∀ x ∈ assets3, isEvm x = true → x.address = ethA :=
    setFirstAddr_preserve_value isCosmosHubTendermint isEvm atomA ethA
      isEvm_addrBlind (fun b _ hb => isCosmosHubTendermint_not_evm b hb) g2 hA3
  have hatomUniq2 : (evmUpdate ethA assets1).countP isCosmosHubTendermint ≤ 1 := by
    rw [hatomCount2, hatomCount1]; exact hatomUniq
  have k3 : ∀ x ∈ assets3, isCosmosHubTendermint x = true → x.address = atomA :=
    setFirstAddr_value_unique isCosmosHubTendermint atomA hA3 hatomUniq2
  simp only [ledgerCreateFlow, hcro, hA1, heth, hcos, hA3]
  refine ⟨trivial, trivial, f3, g3, k3, ?_⟩
  intro hc he ha a hmem hp
  rcases hp with hp | hp | hp
  · rw [f3 a hmem hp]; exact hc
  · rw [g3 a hmem hp]; exact he
  · rw [k3 a hmem hp]; exact ha

/-- C4 witness: on the concrete draft with an always-succeeding device, the
run succeeds and the wallet's top-level address equals the derived
CRYPTO_ORG address. -/
theorem ledger_success_addresses_witness :
    (ledgerCreateFlow okDevice clearedFlag clearedFlag created0).result = .ok () ∧
    (ledgerCreateFlow okDevice clearedFlag clearedFlag created0).draft.wallet.address =
      "addr1" :=
  have h := ledger_success_addresses okDevice clearedFlag clearedFlag created0
    "addr1" "addr1" "addr1" rfl rfl rfl
    ⟨croAsset0, by decide, by decide⟩ ⟨atomAsset0, by decide, by decide⟩
    (by decide) (by decide) (by decide)
  ⟨h.1, h.2.1⟩

/-! ### Market helper lemmas -/

theorem loadTokenSlugMap_slugCache (env : MarketEnv) (st : MarketState) :
    (loadTokenSlugMap env st).state.slugCache = st.slugCache := by
  unfold loadTokenSlugMap
  rcases h : st.tokenSlugMap with _ | l
  · dsimp only
    split
    · rfl
    · rfl
  · dsimp only
    split
    · split
      · rfl
      · rfl
    · rfl

theorem loadTokenSlugMap_trace (env : MarketEnv) (st : MarketState) :
    (loadTokenSlugMap env st).trace = [] ∨
    (loadTokenSlugMap env st).trace = [NetCall.allTokens] := by
  unfold loadTokenSlugMap
  rcases h : st.tokenSlugMap with _ | l
  · dsimp only
    split
    · right; rfl
    · right; rfl
  · dsimp only
    split
    · split
      · right; rfl
      · right; rfl
    · left; rfl

theorem cacheSet_values (c : List (String × String)) (k v : String) :
    ∀ kv ∈ cacheSet c k v, kv.2 = v ∨ kv ∈ c := by
  intro kv hkv
  unfold cacheSet at hkv
  split at hkv
  · rcases List.mem_map.mp hkv with ⟨kv0, h0, rfl⟩
    cases h : (kv0.1 == k)
    · simp only [h, Bool.false_eq_true, if_false]
      right; exact h0
    · simp [h]
  · rcases List.mem_append.mp hkv with h | h
    · right; exact h
    · left
      rw [List.mem_singleton.mp h]

theorem string_length_pos_of_ne_empty (s : String) (h : s ≠ "") : 0 < s.length := by
  rcases s with ⟨l⟩
  cases l with
  | nil => exact absurd rfl h
  | cons c cs => simp [String.length]

/-- Cache-hit behavior of `getTokenSlug`: a present non-empty cached slug is
returned as-is, with no state change and no network call. -/
theorem getTokenSlug_hit (env : MarketEnv) (st : MarketState) (asset : UserAsset)
    (s : String) (h1 : cacheGet st.slugCache asset.identifier = some s)
    (h2 : 0 < s.length) :
    getTokenSlug env st asset = ⟨.ok (some s), st, []⟩ := by
  unfold getTokenSlug
  rw [h1]
  simp [h2]

/-- Cache discipline of the miss path of `getTokenSlug`: errors and no-match
results leave the cache untouched; a successful resolution returns a
non-empty slug and writes exactly that slug under the asset identifier. -/
theorem getTokenSlugMiss_slugCache (env : MarketEnv) (st : MarketState)
    (asset : UserAsset) :
    (∀ e st1 tr1, getTokenSlug.getTokenSlugMiss env st asset = ⟨.error e, st1, tr1⟩ →
      st1.slugCache = st.slugCache) ∧
    (∀ st1 tr1, getTokenSlug.getTokenSlugMiss env st asset = ⟨.ok none, st1, tr1⟩ →
      st1.slugCache = st.slugCache) ∧
    (∀ s st1 tr1, getTokenSlug.getTokenSlugMiss env st asset = ⟨.ok (some s), st1, tr1⟩ →
      s ≠ "" ∧ st1.slugCache = cacheSet st.slugCache asset.identifier s) := by
  have hload := loadTokenSlugMap_slugCache env st
  unfold getTokenSlug.getTokenSlugMiss
  rcases hL : loadTokenSlugMap env st with ⟨res, stL, trL⟩
  rw [hL] at hload
  rcases res with e | D
  · refine ⟨?_, ?_, ?_⟩
    · intro e2 st2 tr2 h
      injection h with h1 h2 h3
      subst h2
      exact hload
    · intro st2 tr2 h
      injection h with h1
      exact Except.noConfusion h1
    · intro s st2 tr2 h
      injection h with h1
      exact Except.noConfusion h1
  · dsimp only
    rcases hf : ((D.filter (fun t => t.symbol == asset.mainnetSymbol)).map
        (fun slugInfo => (env.tokenPriceResp slugInfo.slug).data)).find?
        (slugCandidateMatches env asset.assetType) with _ | t
    · rw [hf]
      refine ⟨?_, ?_, ?_⟩
      · intro e2 st2 tr2 h
        injection h with h1
        exact Except.noConfusion h1
      · intro st1 tr1 h
        injection h with h1 h2 h3
        subst h2
        exact hload
      · intro s st1 tr1 h
        injection h with h1
        rw [Except.ok.injEq] at h1
        exact Option.noConfusion h1
    · rw [hf]
      cases hs : (t.slug == "")
      · simp only [hs, Bool.false_eq_true, if_false]
        refine ⟨?_, ?_, ?_⟩
        · intro e2 st2 tr2 h
          injection h with h1
          exact Except.noConfusion h1
        · intro st1 tr1 h
          injection h with h1
          simp at h1
        · intro s st1 tr1 h
          injection h with h1 h2 h3
          obtain rfl : t.slug = s := by simpa using h1
          subst h2
          refine ⟨?_, ?_⟩
          · intro hempty
            rw [hempty] at hs
            simp at hs
          · dsimp only
            rw [hload]
      · simp only [hs, if_true]
        refine ⟨?_, ?_, ?_⟩
        · intro e2 st2 tr2 h
          injection h with h1
          exact Except.noConfusion h1
        · intro st1 tr1 h
          injection h with h1 h2 h3
          subst h2
          exact hload
        · intro s st1 tr1 h
          injection h with h1
          simp at h1
/-- C5 counterexample: with the slug for "cro-id" present and non-empty in
the SlugCache, a `getAssetPrice` call for that asset still issues a
per-candidate token-price network call — the resolution inside
`getTokenPriceFromCryptoCom` never consults the SlugCache. -/
theorem cached_slug_getAssetPrice_still_fetches :
    cacheGet stCached.slugCache croAsset0.identifier = some "crypto-com-coin" ∧
    ("crypto-com-coin" : String).length > 0 ∧
    (getAssetPrice env0 stCached croAsset0 "USD").2.2 =
      [NetCall.tokenPrice "crypto-com-coin"] ∧
    (getAssetPrice env0 stCached croAsset0 "USD").2.2 ≠ [] := by
  refine ⟨by decide, by decide, by decide, by decide⟩

/-- C5 (amended): for every asset whose identifier is cached with a
non-empty slug, `getTokenSlug` performs zero network calls and returns the
cached slug unchanged; `getAssetPrice`, however, resolves slugs through
`getTokenPriceFromCryptoCom`, which does not consult the SlugCache, so the
cache hit short-circuits only `getTokenSlug`. -/
theorem getTokenSlug_cache_hit_no_network (env : MarketEnv) (st : MarketState)
    (asset : UserAsset) (s : String)
    (h1 : cacheGet st.slugCache asset.identifier = some s)
    (h2 : 0 < s.length) :
    getTokenSlug env st asset = ⟨.ok (some s), st, []⟩ :=
  getTokenSlug_hit env st asset s h1 h2

/-- C5 witness: the cache-hit result on the concrete cached state. -/
theorem getTokenSlug_cache_hit_no_network_witness :
    getTokenSlug env0 stCached croAsset0 = ⟨.ok (some "crypto-com-coin"), stCached, []⟩ :=
  getTokenSlug_cache_hit_no_network env0 stCached croAsset0 "crypto-com-coin"
    (by decide) (by decide)

/-- C9: `getTokenSlug` writes to the SlugCache only when a candidate with a
non-empty slug wins (the entry written is exactly that slug, under the asset
identifier); a no-match (`none`) result and a thrown error leave the cache
unchanged, so the lookup is retried on the next call; every entry ever
stored is non-empty (non-emptiness of all cache values is preserved); and a
cached non-empty slug is returned as-is with no network call. -/
theorem getTokenSlug_cache_write_discipline (env : MarketEnv) (st : MarketState)
    (asset : UserAsset) :
    (∀ st1 tr1, getTokenSlug env st asset = ⟨.ok none, st1, tr1⟩ →
      st1.slugCache = st.slugCache) ∧
    (∀ e st1 tr1, getTokenSlug env st asset = ⟨.error e, st1, tr1⟩ →
      st1.slugCache = st.slugCache) ∧
    (∀ s st1 tr1, getTokenSlug env st asset = ⟨.ok (some s), st1, tr1⟩ →
      s ≠ "" ∧ (st1.slugCache = st.slugCache ∨
        st1.slugCache = cacheSet st.slugCache asset.identifier s)) ∧
    (∀ s, cacheGet st.slugCache asset.identifier = some s → s ≠ "" →
      getTokenSlug env st asset = ⟨.ok (some s), st, []⟩) ∧
    ((∀ kv ∈ st.slugCache, kv.2 ≠ "") →
      ∀ kv ∈ (getTokenSlug env st asset).state.slugCache, kv.2 ≠ "") := by
  obtain ⟨hmE, hmN, hmS⟩ := getTokenSlugMiss_slugCache env st asset
  have hsplit : (∃ s0, cacheGet st.slugCache asset.identifier = some s0 ∧
        0 < s0.length ∧ getTokenSlug env st asset = ⟨.ok (some s0), st, []⟩) ∨
      getTokenSlug env st asset = getTokenSlug.getTokenSlugMiss env st asset := by
    unfold getTokenSlug
    rcases hc : cacheGet st.slugCache asset.identifier with _ | s0
    · right; rfl
    · dsimp only
      cases hlen : decide (0 < s0.length)
      · right
        rw [if_neg (by simpa using hlen)]
      · left
        exact ⟨s0, rfl, by simpa using hlen, by rw [if_pos (by simpa using hlen)]⟩
  rcases hsplit with ⟨s0, hc, hlen, heq⟩ | hmiss
  · refine ⟨?_, ?_, ?_, ?_, ?_⟩
    · intro st1 tr1 h
      rw [heq] at h
      injection h with h1
      simp at h1
    · intro e st1 tr1 h
      rw [heq] at h
      injection h with h1
      exact Except.noConfusion h1
    · intro s st1 tr1 h
      rw [heq] at h
      injection h with h1 h2 h3
      obtain rfl : s0 = s := by simpa using h1
      subst h2
      refine ⟨?_, Or.inl rfl⟩
      intro hempty
      rw [hempty] at hlen
      simp at hlen
    · intro s hc2 _
      rw [hc] at hc2
      obtain rfl : s0 = s := Option.some.inj hc2
      exact heq
    · intro hinv kv hkv
      rw [heq] at hkv
      exact hinv kv hkv
  · refine ⟨?_, ?_, ?_, ?_, ?_⟩
    · intro st1 tr1 h
      rw [hmiss] at h
      exact hmN st1 tr1 h
    · intro e st1 tr1 h
      rw [hmiss] at h
      exact hmE e st1 tr1 h
    · intro s st1 tr1 h
      rw [hmiss] at h
      obtain ⟨hs, hset⟩ := hmS s st1 tr1 h
      exact ⟨hs, Or.inr hset⟩
    · intro s hc2 hs
      -- the cache-hit case is impossible here only when the hit branch was
      -- not taken; derive the hit result directly instead
      exact getTokenSlug_hit env st asset s hc2 (string_length_pos_of_ne_empty s hs)
    · intro hinv kv hkv
      rw [hmiss] at hkv
      rcases hm : getTokenSlug.getTokenSlugMiss env st asset with ⟨res, st1, tr1⟩
      rw [hm] at hkv
      rcases res with e | r
      · rw [hmE e st1 tr1 hm] at hkv
        exact hinv kv hkv
      · rcases r with _ | s
        · rw [hmN st1 tr1 hm] at hkv
          exact hinv kv hkv
        · obtain ⟨hs, hset⟩ := hmS s st1 tr1 hm
          rw [hset] at hkv
          rcases cacheSet_values st.slugCache asset.identifier s kv hkv with h | h
          · rw [h]; exact hs
          · exact hinv kv h

/-- C9 witness: on the concrete cached state the cached slug is returned
unchanged. -/
theorem getTokenSlug_cache_write_discipline_witness :
    getTokenSlug env0 stCached croAsset0 = ⟨.ok (some "crypto-com-coin"), stCached, []⟩ :=
  (getTokenSlug_cache_write_discipline env0 stCached croAsset0).2.2.2.1
    "crypto-com-coin" (by decide) (by decide)

theorem contains_nil_str (a : String) : ([] : List String).contains a = false := rfl

theorem find?_first_match {α : Type} (p : α → Bool) :
    ∀ (l : List α) (t : α), l.find? p = some t ↔
      ∃ pre post, l = pre ++ t :: post ∧ p t = true ∧ ∀ b ∈ pre, p b = false := by
  intro l
  induction l with
  | nil =>
    intro t
    constructor
    · intro h; exact Option.noConfusion h
    · rintro ⟨pre, post, h, -, -⟩
      exact absurd h (by simp)
  | cons a rest ih =>
    intro t
    cases hp : p a
    · rw [List.find?_cons_of_neg _ (by simp [hp])]
      constructor
      · intro h
        rcases (ih t).mp h with ⟨pre, post, h1, h2, h3⟩
        refine ⟨a :: pre, post, by simp [h1], h2, ?_⟩
        intro b hb
        rcases List.mem_cons.mp hb with rfl | hb
        · exact hp
        · exact h3 b hb
      · rintro ⟨pre, post, h1, h2, h3⟩
        cases pre with
        | nil =>
          simp only [List.nil_append, List.cons.injEq] at h1
          rcases h1 with ⟨rfl, rfl⟩
          rw [hp] at h2
          exact Bool.noConfusion h2
        | cons b pre2 =>
          simp only [List.cons_append, List.cons.injEq] at h1
          rcases h1 with ⟨rfl, h1⟩
          exact (ih t).mpr ⟨pre2, post, h1, h2, fun x hx => h3 x (by simp [hx])⟩
    · rw [List.find?_cons_of_pos _ (by simp [hp])]
      constructor
      · intro h
        obtain rfl : a = t := by simpa using h
        exact ⟨[], rest, rfl, hp, by simp⟩
      · rintro ⟨pre, post, h1, h2, h3⟩
        cases pre with
        | nil =>
          simp only [List.nil_append, List.cons.injEq] at h1
          rcases h1 with ⟨rfl, -⟩
          rfl
        | cons b pre2 =>
          simp only [List.cons_append, List.cons.injEq] at h1
          rcases h1 with ⟨rfl, h1⟩
          have hb := h3 a (by simp)
          rw [hp] at hb
          exact Bool.noConfusion hb

/-- A successful slug resolution through the miss path of `getTokenSlug`
comes from the first matching fetched candidate. -/
theorem getTokenSlugMiss_success_find (env : MarketEnv) (st : MarketState)
    (asset : UserAsset) :
    ∀ s st1 tr1, getTokenSlug.getTokenSlugMiss env st asset = ⟨.ok (some s), st1, tr1⟩ →
      ∃ D t, (loadTokenSlugMap env st).result = .ok D ∧
        ((D.filter (fun r => r.symbol == asset.mainnetSymbol)).map
            (fun si => (env.tokenPriceResp si.slug).data)).find?
          (slugCandidateMatches env asset.assetType) = some t ∧ s = t.slug := by
  intro s st1 tr1 h
  unfold getTokenSlug.getTokenSlugMiss at h
  rcases hL : loadTokenSlugMap env st with ⟨res, stL, trL⟩
  rw [hL] at h
  rcases res with e | D
  · injection h with h1
    exact Except.noConfusion h1
  · dsimp only at h
    rcases hf : ((D.filter (fun r => r.symbol == asset.mainnetSymbol)).map
        (fun si => (env.tokenPriceResp si.slug).data)).find?
        (slugCandidateMatches env asset.assetType) with _ | t
    · rw [hf] at h
      injection h with h1
      simp at h1
    · rw [hf] at h
      cases hs : (t.slug == "")
      · simp only [hs, Bool.false_eq_true, if_false] at h
        injection h with h1
        obtain rfl : t.slug = s := by simpa using h1
        exact ⟨D, t, rfl, hf, rfl⟩
      · simp only [hs, if_true] at h
        injection h with h1
        simp at h1

/-- A successful `getTokenPriceFromCryptoCom` call selects the first
matching fetched candidate (status 200), converts the currency only when the
requested fiat is not USD (rate 1 otherwise), and returns the stringified
values. -/
theorem getTokenPriceFromCryptoCom_success_find (env : MarketEnv)
    (st : MarketState) (asset : UserAsset) (fiat : String) :
    ∀ p d st1 tr1,
      getTokenPriceFromCryptoCom env st asset fiat = ⟨.ok (p, d), st1, tr1⟩ →
      ∃ D t, (loadTokenSlugMap env st).result = .ok D ∧
        ((D.filter (fun r => r.symbol == asset.mainnetSymbol)).map
            (fun si => env.tokenPriceResp si.slug)).find?
          (fun r => slugCandidateMatches env asset.assetType r.data) = some t ∧
        t.status = 200 ∧
        d = numToStr t.data.usd_price_change_24h ∧
        ((fiat = "USD" ∧ p = numToStr t.data.usd_price) ∨
         (fiat ≠ "USD" ∧ ∃ rate,
            getCryptoToFiatRateFromCoinbase env "USD" fiat = .ok rate ∧
            p = numToStr (t.data.usd_price * rate))) := by
  intro p d st1 tr1 h
  unfold getTokenPriceFromCryptoCom at h
  rcases hL : loadTokenSlugMap env st with ⟨res, stL, trL⟩
  rw [hL] at h
  rcases res with e | D
  · injection h with h1
    exact Except.noConfusion h1
  · dsimp only at h
    rcases hf : ((D.filter (fun r => r.symbol == asset.mainnetSymbol)).map
        (fun si => env.tokenPriceResp si.slug)).find?
        (fun r => slugCandidateMatches env asset.assetType r.data) with _ | t
    · rw [hf] at h
      injection h with h1
      exact Except.noConfusion h1
    · rw [hf] at h
      cases hstat : (t.status != 200)
      · simp only [hstat, Bool.false_eq_true, if_false] at h
        cases hfiat : (fiat != "USD")
        · simp only [hfiat, Bool.false_eq_true, if_false] at h
          injection h with h1
          have hpd := Prod.mk.injEq .. ▸ Except.ok.inj h1
          refine ⟨D, t, rfl, hf, by simpa using hstat, ?_, ?_⟩
          · have : d = numToStr t.data.usd_price_change_24h := by
              have := (Prod.mk.inj (Except.ok.inj h1)).2
              exact this.symm
            exact this
          · left
            refine ⟨by simpa using hfiat, ?_⟩
            have hp := (Prod.mk.inj (Except.ok.inj h1)).1
            rw [← hp, mul_one]
        · simp only [hfiat, if_true] at h
          rcases hcb : getCryptoToFiatRateFromCoinbase env "USD" fiat with e | rate
          · rw [hcb] at h
            injection h with h1
            exact Except.noConfusion h1
          · rw [hcb] at h
            injection h with h1
            refine ⟨D, t, rfl, hf, by simpa using hstat, ?_, ?_⟩
            · exact ((Prod.mk.inj (Except.ok.inj h1)).2).symm
            · right
              refine ⟨by simpa using hfiat, rate, rfl, ?_⟩
              exact ((Prod.mk.inj (Except.ok.inj h1)).1).symm
      · simp only [hstat, if_true] at h
        injection h with h1
        exact Except.noConfusion h1

/-- C6: the candidate-selection predicate used by both `getTokenSlug` and
`getTokenPriceFromCryptoCom` is exactly the claimed disjunction (native
slug, whitelisted CRC-20 symbol, cronos-ecosystem tag on a CRC-20 asset,
whitelisted upper-cased ERC-20 symbol); selection picks the first fetched
candidate satisfying it; an absent tag list behaves like an empty one; a
CRC-20 asset with a whitelisted symbol always matches; and every successful
resolution in either function comes from the first matching candidate. -/
theorem slug_selection_policy (env : MarketEnv) (st : MarketState)
    (asset : UserAsset) :
    (∀ t, slugCandidateMatches env asset.assetType t =
      claimCandidateMatches env asset.assetType t) ∧
    (∀ (l : List CryptoTokenPriceAPIResponse) (t : CryptoTokenPriceAPIResponse),
      l.find? (slugCandidateMatches env asset.assetType) = some t ↔
        ∃ pre post, l = pre ++ t :: post ∧
          claimCandidateMatches env asset.assetType t = true ∧
          ∀ b ∈ pre, claimCandidateMatches env asset.assetType b = false) ∧
    (∀ t : CryptoTokenPriceAPIResponse, t.tags = none →
      slugCandidateMatches env asset.assetType t =
        slugCandidateMatches env asset.assetType { t with tags := some [] }) ∧
    (∀ t : CryptoTokenPriceAPIResponse, asset.assetType = .CRC_20_TOKEN →
      env.whitelistedCRC20Tokens.contains t.symbol = true →
      slugCandidateMatches env asset.assetType t = true) ∧
    (∀ s st1 tr1, getTokenSlug.getTokenSlugMiss env st asset = ⟨.ok (some s), st1, tr1⟩ →
      ∃ D t, (loadTokenSlugMap env st).result = .ok D ∧
        ((D.filter (fun r => r.symbol == asset.mainnetSymbol)).map
            (fun si => (env.tokenPriceResp si.slug).data)).find?
          (slugCandidateMatches env asset.assetType) = some t ∧ s = t.slug) ∧
    (∀ fiat p d st1 tr1,
      getTokenPriceFromCryptoCom env st asset fiat = ⟨.ok (p, d), st1, tr1⟩ →
      ∃ D t, (loadTokenSlugMap env st).result = .ok D ∧
        ((D.filter (fun r => r.symbol == asset.mainnetSymbol)).map
            (fun si => env.tokenPriceResp si.slug)).find?
          (fun r => slugCandidateMatches env asset.assetType r.data) = some t) := by
  have hpred : ∀ t, slugCandidateMatches env asset.assetType t =
      claimCandidateMatches env asset.assetType t := by
    intro t
    simp only [slugCandidateMatches, claimCandidateMatches, nativeTokenSlug,
      List.contains_cons, contains_nil_str, Bool.or_false, Bool.or_assoc]
  refine ⟨hpred, ?_, ?_, ?_, ?_, ?_⟩
  · intro l t
    have hfun : slugCandidateMatches env asset.assetType =
        claimCandidateMatches env asset.assetType := funext hpred
    rw [hfun]
    exact find?_first_match (claimCandidateMatches env asset.assetType) l t
  · intro t htags
    unfold slugCandidateMatches
    rw [htags]
    rfl
  · intro t hty hwl
    unfold slugCandidateMatches
    rw [hty, hwl]
    simp
  · exact getTokenSlugMiss_success_find env st asset
  · intro fiat p d st1 tr1 h
    rcases getTokenPriceFromCryptoCom_success_find env st asset fiat p d st1 tr1 h
      with ⟨D, t, h1, h2, -⟩
    exact ⟨D, t, h1, h2⟩

/-- C6 witness: a CRC-20 asset whose symbol is whitelisted matches even with
no native slug and no tag. -/
theorem slug_selection_policy_witness :
    slugCandidateMatches
      ⟨⟨200, []⟩, fun _ => ⟨200, croTokenRecord⟩, fun s => ⟨200, some ⟨s, []⟩⟩,
        ["VVS"], []⟩
      UserAssetType.CRC_20_TOKEN
      ⟨"vvs-finance", "VVS", 0, 0, none⟩ = true :=
  (slug_selection_policy
      ⟨⟨200, []⟩, fun _ => ⟨200, croTokenRecord⟩, fun s => ⟨200, some ⟨s, []⟩⟩,
        ["VVS"], []⟩
      st0
      ⟨"vvs-id", UserAssetType.CRC_20_TOKEN, "VVS", "VVS", "", none⟩).2.2.2.1
    ⟨"vvs-finance", "VVS", 0, 0, none⟩ rfl (by decide)

theorem loadTokenSlugMap_trace2 (env : MarketEnv) (st : MarketState)
    {res : Except String (List CryptoComSlugResponse)} {stL : MarketState}
    {trL : List NetCall} (h : loadTokenSlugMap env st = ⟨res, stL, trL⟩) :
    trL = [] ∨ trL = [NetCall.allTokens] := by
  have htr := loadTokenSlugMap_trace env st
  rw [h] at htr
  simpa using htr

theorem getAssetPrice_trace_eq (env : MarketEnv) (st : MarketState)
    (asset : UserAsset) (ccy : String) :
    (getAssetPrice env st asset ccy).2.2 =
      (getTokenPriceFromCryptoCom env st asset ccy).trace := by
  unfold getAssetPrice
  rcases h : getTokenPriceFromCryptoCom env st asset ccy with ⟨res, st1, tr1⟩
  rcases res with e | ⟨p, d⟩ <;> rfl

/-- The USD price path of `getTokenPriceFromCryptoCom` never issues an
exchange-rates call: its trace consists of the directory fetch (at most one)
and per-candidate token-price fetches only. -/
theorem getTokenPriceFromCryptoCom_usd_no_coinbase (env : MarketEnv)
    (st : MarketState) (asset : UserAsset) :
    ∀ c, NetCall.exchangeRates c ∉
      (getTokenPriceFromCryptoCom env st asset "USD").trace := by
  intro c
  unfold getTokenPriceFromCryptoCom
  rcases hL : loadTokenSlugMap env st with ⟨res, stL, trL⟩
  rcases res with e | D
  · dsimp only
    intro hmem
    rcases loadTokenSlugMap_trace2 env st hL with rfl | rfl
    · simp at hmem
    · simp at hmem
  · dsimp only
    rcases hf : ((D.filter (fun r => r.symbol == asset.mainnetSymbol)).map
        (fun si => env.tokenPriceResp si.slug)).find?
        (fun r => slugCandidateMatches env asset.assetType r.data) with _ | t
    · rw [hf]
      intro hmem
      rcases List.mem_append.mp hmem with hm | hm
      · rcases loadTokenSlugMap_trace2 env st hL with rfl | rfl
        · simp at hm
        · simp at hm
      · rcases List.mem_map.mp hm with ⟨si, -, hsi⟩
        exact NetCall.noConfusion hsi
    · rw [hf]
      cases hstat : (t.status != 200)
      · simp only [hstat, Bool.false_eq_true, if_false]
        rw [if_neg (by decide : ¬((("USD" : String) != "USD") = true))]
        intro hmem
        rcases List.mem_append.mp hmem with hm | hm
        · rcases loadTokenSlugMap_trace2 env st hL with rfl | rfl
          · simp at hm
          · simp at hm
        · rcases List.mem_map.mp hm with ⟨si, -, hsi⟩
          exact NetCall.noConfusion hsi
      · simp only [hstat, if_true]
        intro hmem
        rcases List.mem_append.mp hmem with hm | hm
        · rcases loadTokenSlugMap_trace2 env st hL with rfl | rfl
          · simp at hm
          · simp at hm
        · rcases List.mem_map.mp hm with ⟨si, -, hsi⟩
          exact NetCall.noConfusion hsi

/-- C8: `getAssetPrice(asset, "USD")` never calls the Coinbase fiat
exchange-rate source (no `exchangeRates` request ever appears in its trace),
and any successful USD price is the selected candidate's `usd_price`
stringified after multiplication by the fixed rate 1 (i.e. unchanged); the
rate source is consulted only when the requested currency differs from
"USD". -/
theorem getAssetPrice_usd_rate_one (env : MarketEnv) (st : MarketState)
    (asset : UserAsset) :
    (∀ c, NetCall.exchangeRates c ∉ (getAssetPrice env st asset "USD").2.2) ∧
    (∀ p d st1 tr1,
      getTokenPriceFromCryptoCom env st asset "USD" = ⟨.ok (p, d), st1, tr1⟩ →
      ∃ D t, (loadTokenSlugMap env st).result = .ok D ∧
        ((D.filter (fun r => r.symbol == asset.mainnetSymbol)).map
            (fun si => env.tokenPriceResp si.slug)).find?
          (fun r => slugCandidateMatches env asset.assetType r.data) = some t ∧
        p = numToStr t.data.usd_price ∧
        d = numToStr t.data.usd_price_change_24h) ∧
    (∀ fiat p d st1 tr1, fiat ≠ "USD" →
      getTokenPriceFromCryptoCom env st asset fiat = ⟨.ok (p, d), st1, tr1⟩ →
      ∃ rate, getCryptoToFiatRateFromCoinbase env "USD" fiat = .ok rate) := by
  refine ⟨?_, ?_, ?_⟩
  · intro c
    rw [getAssetPrice_trace_eq]
    exact getTokenPriceFromCryptoCom_usd_no_coinbase env st asset c
  · intro p d st1 tr1 h
    rcases getTokenPriceFromCryptoCom_success_find env st asset "USD" p d st1 tr1 h
      with ⟨D, t, h1, h2, -, hd, hp⟩
    rcases hp with ⟨-, hp⟩ | ⟨hne, -⟩
    · exact ⟨D, t, h1, h2, hp, hd⟩
    · exact absurd rfl hne
  · intro fiat p d st1 tr1 hfiat h
    rcases getTokenPriceFromCryptoCom_success_find env st asset fiat p d st1 tr1 h
      with ⟨D, t, -, -, -, -, hp⟩
    rcases hp with ⟨heq, -⟩ | ⟨-, rate, hcb, -⟩
    · exact absurd heq hfiat
    · exact ⟨rate, hcb⟩

/-- C8 witness: no exchange-rates call appears in the concrete USD price
lookup. -/
theorem getAssetPrice_usd_rate_one_witness :
    NetCall.exchangeRates "USD" ∉ (getAssetPrice env0 st0 croAsset0 "USD").2.2 :=
  (getAssetPrice_usd_rate_one env0 st0 croAsset0).1 "USD"

/-- C10: `getCryptoToFiatRateFromCoinbase` returns a rate exactly when the
response status is 200, the body is present with `currency` echoing the
requested crypto symbol, and the rates map defines the requested fiat
currency; in every other case it throws. Consequently (second conjunct) a
non-USD `getAssetPrice` call can return the empty-price record even though
every feed call answers with status 200, as the concrete environment with an
empty rates map shows. -/
theorem coinbase_rate_iff (env : MarketEnv) (sym fiat : String) :
    ((∃ r, getCryptoToFiatRateFromCoinbase env sym fiat = .ok r) ↔
      ((env.coinbaseResp sym).status = 200 ∧
        ∃ d, (env.coinbaseResp sym).data = some d ∧ d.currency = sym ∧
          (d.rates.find? (fun kv => kv.1 == fiat)).isSome)) ∧
    ((getAssetPrice envNoRates st0 croAsset0 "EUR").1 =
        ⟨"CRO", "EUR", "", "", .TENDERMINT⟩ ∧
      envNoRates.allTokensResp.status = 200 ∧
      (∀ s, (envNoRates.tokenPriceResp s).status = 200) ∧
      (∀ s, (envNoRates.coinbaseResp s).status = 200)) := by
  constructor
  · constructor
    · rintro ⟨r, hr⟩
      unfold getCryptoToFiatRateFromCoinbase at hr
      cases hstat : ((env.coinbaseResp sym).status != 200)
      · simp only [hstat, Bool.false_eq_true, if_false] at hr
        rcases hdata : (env.coinbaseResp sym).data with _ | d
        · rw [hdata] at hr
          exact Except.noConfusion hr
        · rw [hdata] at hr
          cases hcur : (d.currency == sym)
          · simp only [hcur, Bool.false_eq_true, if_false] at hr
            exact Except.noConfusion hr
          · simp only [hcur, if_true] at hr
            rcases hlk : getCryptoToFiatRateFromCoinbase.cacheRateLookup d.rates fiat
              with _ | rate
            · rw [hlk] at hr
              exact Except.noConfusion hr
            · refine ⟨by simpa using hstat, d, rfl, by simpa using hcur, ?_⟩
              unfold getCryptoToFiatRateFromCoinbase.cacheRateLookup at hlk
              rcases Option.map_eq_some'.mp hlk with ⟨kv, hkv, -⟩
              rw [hkv]
              rfl
      · simp only [hstat, if_true] at hr
        exact Except.noConfusion hr
    · rintro ⟨h200, d, hdata, hcur, hrate⟩
      obtain ⟨kv, hkv⟩ := Option.isSome_iff_exists.mp hrate
      refine ⟨kv.2, ?_⟩
      unfold getCryptoToFiatRateFromCoinbase
      rw [if_neg (by simp [h200])]
      rw [hdata]
      dsimp only
      rw [if_pos (by simp [hcur])]
      have hlk : getCryptoToFiatRateFromCoinbase.cacheRateLookup d.rates fiat =
          some kv.2 := by
        unfold getCryptoToFiatRateFromCoinbase.cacheRateLookup
        rw [hkv]
        rfl
      rw [hlk]
  · refine ⟨by decide, rfl, fun s => rfl, fun s => rfl⟩

/-- C10 witness: in the all-succeeding concrete environment the rate exists,
with every condition of the characterization discharged concretely. -/
theorem coinbase_rate_iff_witness :
    ∃ r, getCryptoToFiatRateFromCoinbase env0 "USD" "EUR" = .ok r :=
  (coinbase_rate_iff env0 "USD" "EUR").1.mpr
    ⟨rfl, ⟨"USD", [("EUR", 9 / 10)]⟩, rfl, rfl, by decide⟩

end Wallet
